import Mathlib

/-!
Verification development for the RevuAI Reddit comment-acquisition pipeline
(`python-backend/`).  The Python sources are shallowly embedded: strings are
lists of characters, Python dicts (used as insertion-ordered dedup maps) are
association lists with Python's replace-in-place update semantics, the
`list.sort` call is modelled by a stable insertion sort, and the thread pools'
nondeterministic completion order is an explicit adversarial parameter (a list
of per-future results in completion order).  Wall-clock readings are explicit
rational-number arguments.
-/

/-- Python `str` values, embedded as lists of characters.  Python's `.lower()`
is modelled ASCII-wise by `Char.toLower`; all texts in the repository's own
test data are ASCII. -/
abbrev PyStr := List Char

/-- Python `str.lower()` (ASCII model). -/
def lower (s : PyStr) : PyStr := s.map Char.toLower

/-- The characters Python's argumentless `str.split()` splits on
(ASCII whitespace: space, tab, newline, carriage return, vertical tab,
form feed). -/
def pyIsSpace (c : Char) : Bool :=
  c = ' ' || c = '\t' || c = '\n' || c = '\r' || c = '\x0b' || c = '\x0c'

/-- Python `str.split()` with no separator: split on runs of whitespace and
drop empty fragments. -/
def pySplit (s : PyStr) : List PyStr :=
  (s.splitOnP pyIsSpace).filter (fun t => t ≠ [])

/-- Bool test that `n` is an initial segment of `h` (used to build the model
of Python's substring operator `in`). -/
def startsWithB : PyStr → PyStr → Bool
  | [], _ => true
  | _ :: _, [] => false
  | a :: as, b :: bs => a = b && startsWithB as bs

/-- Model of Python's `needle in hay` substring test. -/
def containsStr (hay needle : PyStr) : Bool :=
  match hay with
  | [] => needle.isEmpty
  | _ :: t => startsWithB needle hay || containsStr t needle

/-- Specification-side substring relation: `needle` occurs contiguously
inside `hay`. -/
def SubStr (needle hay : PyStr) : Prop :=
  ∃ pre post, hay = pre ++ needle ++ post

/-- Embedding of `is_relevant` from `python-backend/testing.py` (lines 7-32),
the adaptive relevance filter: single-term queries use a plain substring
test, multi-term strict mode requires the exact phrase or all terms, and
multi-term relaxed mode requires the exact phrase or a strict majority of
terms. -/
def is_relevant (text query : PyStr) (relaxed : Bool) : Bool :=
  if text.isEmpty || query.isEmpty then false
  else
    let text_lower := lower text
    let query_lower := lower query
    let query_terms := pySplit query_lower
    if query_terms.length = 1 then
      containsStr text_lower query_lower
    else if !relaxed then
      if containsStr text_lower query_lower then true
      else query_terms.all (fun term => containsStr text_lower term)
    else
      if containsStr text_lower query_lower then true
      else
        let terms_present :=
          (query_terms.filter (fun term => containsStr text_lower term)).length
        let required_terms := max 1 (query_terms.length / 2 + 1)
        decide (required_terms ≤ terms_present)

/-- Comment record as built by `fetch_comments_lightweight` in
`python-backend/reddit_fetcher.py` (lines 348-353): the dict
`{id, text, score, post_title}`. -/
structure Comment where
  id : String
  text : PyStr
  score : Int
  post_title : PyStr
deriving DecidableEq

/-- Post record as used by `fetch_mass_comments`: the fields of the search
result dicts the orchestrator reads (`data.id`, `data.num_comments`,
`data.permalink`). -/
structure Post where
  id : String
  num_comments : Nat
  permalink : String
deriving DecidableEq

/-- Stable insertion into a sorted list: `x` goes in front of the first
element `y` with `le x y`. -/
def insertBy {α : Type} (le : α → α → Bool) (x : α) : List α → List α
  | [] => [x]
  | y :: ys => if le x y then x :: y :: ys else y :: insertBy le x ys

/-- Stable insertion sort, modelling Python's stable `list.sort`:
`le a b` means "`a` may come no later than `b`", so for
`sort(key=score, reverse=True)` one takes `le a b := b.score ≤ a.score`. -/
def sortBy {α : Type} (le : α → α → Bool) : List α → List α
  | [] => []
  | x :: xs => insertBy le x (sortBy le xs)

/-- Python dict assignment `m[key x] = x` on an insertion-ordered dict
embedded as a list: if the key is present the stored record is replaced in
place (keeping its position), otherwise the record is appended. -/
def dictUpd {α β : Type} [DecidableEq β] (key : α → β) (m : List α) (x : α) : List α :=
  if m.any (fun y => key y = key x) then
    m.map (fun y => if key y = key x then x else y)
  else m ++ [x]

/-- The merge loop of `fetch_mass_comments` (reddit_fetcher.py lines
417-433): comment batches arrive in thread-pool completion order (an
adversarial parameter here), each batch is written into the dedup dict
`comments_by_id` via `comments_by_id[c.id] = c`, and the loop breaks once
the dict holds at least `needed` comments. -/
def mergeLoop (needed : Nat) : List Comment → List (List Comment) → List Comment
  | m, [] => m
  | m, cs :: rest =>
    let m2 := cs.foldl (dictUpd Comment.id) m
    if needed ≤ m2.length then m2 else mergeLoop needed m2 rest

/-- The finalization step of `fetch_mass_comments` (lines 435-437): sort the
dedup dict's values by score descending (stable) and truncate to
`target_comments`. -/
def finalize (m : List Comment) (target : Nat) : List Comment :=
  (sortBy (fun a b => decide (b.score ≤ a.score)) m).take target

/-- Outcome of one discovery strategy's `fetch_posts_batch` future:
`Except.error ()` when the strategy raised (caught and skipped by the
orchestrator), `Except.ok posts` otherwise. -/
abbrev StratResult := Except Unit (List Post)

/-- Phase 1 of `fetch_mass_comments` (lines 377-395): extend `all_posts`
with each non-raising strategy's posts (in completion order), dedup by post
id through the dict comprehension `{p.id : p}` (last write wins, first
position kept), then sort by `num_comments` descending. -/
def discoverPosts (results : List StratResult) : List Post :=
  let all_posts := results.foldl (fun acc r => acc ++ (r.toOption.getD [])) []
  let uniq := all_posts.foldl (dictUpd Post.id) []
  sortBy (fun a b => decide (b.num_comments ≤ a.num_comments)) uniq

/-- The fields of the dict returned by `fetch_mass_comments` that are not
wall-clock readings (elapsed time, throughput and timestamp are real-time
measurements and are omitted from the embedding). -/
structure FetchResult where
  comments : List Comment
  totalComments : Nat
  targetComments : Nat
deriving DecidableEq

/-- `fetch_mass_comments` (reddit_fetcher.py lines 366-455).  Strategy
outcomes and per-post comment batches stand for the thread pools' results in
completion order; every exception a worker raises is caught inside the
function, so the embedding is total and the `Except` layer records that the
function body itself never raises to the caller. -/
def fetchMassModel (stratResults : List StratResult)
    (batches : List (List Comment)) (target : Nat) : Except Unit FetchResult :=
  let posts := discoverPosts stratResults
  let _posts_to_process := posts.take (min posts.length (target / 30 + 200))
  let merged := mergeLoop target [] batches
  let final := finalize merged target
  Except.ok { comments := final, totalComments := final.length, targetComments := target }

/-- Python `str.strip()`: drop leading and trailing whitespace (ASCII model). -/
def pyStrip (s : PyStr) : PyStr :=
  ((s.dropWhile pyIsSpace).reverse.dropWhile pyIsSpace).reverse

/-- The keyword list of `fetch_comments_lightweight` (reddit_fetcher.py line
333): the words of the lowercased query longer than 2 characters (stripped),
or the empty list when the query is empty. -/
def queryKeywords (query : PyStr) : List PyStr :=
  if query.isEmpty then []
  else ((pySplit (lower query)).filter (fun w => 2 < (pyStrip w).length)).map
    (fun w => pyStrip (lower w))

/-- A node of the Reddit comment-tree JSON as read by `extract_comments`:
`kind`, `data.id`, `data.score`, `data.body` and the nested `replies`
listing's children. -/
inductive RTree : Type where
  | node (kind : String) (id : String) (score : Int) (body : PyStr)
      (replies : List RTree)

/-- The text `f"{body.lower()} {post_title.lower()}"` that the keyword check
of `extract_comments` (line 345) runs on. -/
def combinedText (body post_title : PyStr) : PyStr :=
  lower body ++ ' ' :: lower post_title

mutual

/-- One node of `extract_comments` (reddit_fetcher.py lines 335-357): skip
non-`t1` nodes; drop the comment if its score is below `min_score`, its
stripped body is shorter than 10 characters or is a deleted/removed
placeholder, or (when keywords exist) neither any keyword nor the full
lowercased query occurs in body+post-title; otherwise emit the record and,
while `depth < 3`, recurse into the replies. -/
def extractNode (min_score : Int) (kws : List PyStr) (query post_title : PyStr)
    (t : RTree) (depth : Nat) : List Comment :=
  match t with
  | .node kind cid score body replies =>
    if kind ≠ "t1" then []
    else
      let b := pyStrip body
      if score < min_score ∨ b.length < 10 ∨ b = "[deleted]".data ∨
          b = "[removed]".data then []
      else if kws ≠ [] ∧
          ¬ (kws.any (fun k => containsStr (combinedText b post_title) k) = true ∨
             containsStr (combinedText b post_title) (lower query) = true) then []
      else
        ⟨cid, b, score, post_title⟩ ::
          (if depth < 3 then
            extractForest min_score kws query post_title replies (depth + 1)
          else [])

/-- The `for comment in comment_list` loop of `extract_comments`. -/
def extractForest (min_score : Int) (kws : List PyStr) (query post_title : PyStr)
    (ts : List RTree) (depth : Nat) : List Comment :=
  match ts with
  | [] => []
  | t :: rest =>
    extractNode min_score kws query post_title t depth ++
      extractForest min_score kws query post_title rest depth

end

/-- One successfully parsed comment-tree response: the post title extracted
from `data[0]` and the top-level comment nodes of `data[1]`. -/
structure ParsedTree where
  post_title : PyStr
  children : List RTree

/-- `fetch_comments_lightweight` (reddit_fetcher.py lines 307-364): try the
accounts in order; `none` stands for an attempt whose HTTP call returned no
response or whose body failed to parse; the first successful response is
flattened through `extract_comments` and returned; if every account fails,
the function returns the empty list instead of raising. -/
def fetchCommentsLightweight (min_score : Int) (query : PyStr)
    (attempts : List (Option ParsedTree)) : List Comment :=
  match attempts with
  | [] => []
  | none :: rest => fetchCommentsLightweight min_score query rest
  | some p :: _ =>
    extractForest min_score (queryKeywords query) query p.post_title p.children 0

/-- The per-account token bucket of reddit_fetcher.py (lines 29-64), with
wall-clock readings (`time.time()`) as explicit rational arguments and
token amounts as rationals. -/
structure TokenBucket where
  rate : ℚ
  capacity : ℚ
  tokens : ℚ
  last : ℚ

/-- `TokenBucket.__init__`: rate is tokens-per-minute over 60, capacity is
`max(burst_capacity, 1)`, the bucket starts full, and `_last` is the
construction time. -/
def TokenBucket.init (tokens_per_minute burst_capacity now : ℚ) : TokenBucket :=
  { rate := tokens_per_minute / 60
    capacity := max burst_capacity 1
    tokens := max burst_capacity 1
    last := now }

/-- `TokenBucket.consume`: refill continuously for the elapsed time since
`_last`, capped at capacity, then subtract `req` tokens if available;
returns the new state and whether the request was granted. -/
def TokenBucket.consume (b : TokenBucket) (now req : ℚ) : TokenBucket × Bool :=
  let elapsed := now - b.last
  let toks := min b.capacity (b.tokens + elapsed * b.rate)
  if req ≤ toks then
    ({ b with tokens := toks - req, last := now }, true)
  else
    ({ b with tokens := toks, last := now }, false)

/-- An arbitrary sequence of `consume` calls; each event carries the
wall-clock time of the call and the requested token amount (the source
calls `consume()` with 1.0 and `consume(0)` with 0). -/
def TokenBucket.runEvents (b : TokenBucket) : List (ℚ × ℚ) → TokenBucket
  | [] => b
  | e :: es => TokenBucket.runEvents (b.consume e.1 e.2).1 es

/-- `TokenBucket.wait_for_token`: a polling loop of unit-token `consume`
calls at the given attempt times; it stops at the first success, or when
the attempts run out (the timeout).  All its state changes go through
`consume`. -/
def TokenBucket.waitForToken (b : TokenBucket) : List ℚ → TokenBucket × Bool
  | [] => (b, false)
  | t :: ts =>
    let r := b.consume t 1
    if r.2 then (r.1, true) else TokenBucket.waitForToken r.1 ts

/-- Relevance-filtering mode. -/
inductive Mode : Type where
  | strict
  | relaxed
deriving DecidableEq

/-- Modelled from the spec: the `EngagementProfile` record of spec §3 —
median, mean and top-5 average of the discovered posts' comment counts.
No engagement classifier exists under the provided sources (the adaptive
fetcher variant is absent); this component is reconstructed from the
specification text. -/
structure EngagementProfile where
  median : ℚ
  mean : ℚ
  top5 : ℚ

/-- Modelled from the spec: the median of the comment counts (midpoint of
the sorted list, averaging the two middle elements for even lengths). -/
def medianOf (counts : List Nat) : ℚ :=
  let s := sortBy (fun a b => decide (a ≤ b)) counts
  if s.length = 0 then 0
  else if s.length % 2 = 1 then ((s.getD (s.length / 2) 0 : Nat) : ℚ)
  else (((s.getD (s.length / 2 - 1) 0 : Nat) : ℚ) +
    ((s.getD (s.length / 2) 0 : Nat) : ℚ)) / 2

/-- Modelled from the spec: the arithmetic mean of the comment counts. -/
def meanOf (counts : List Nat) : ℚ :=
  if counts.length = 0 then 0 else ((counts.sum : Nat) : ℚ) / (counts.length : ℚ)

/-- Modelled from the spec: the average of the top-5 posts' comment counts. -/
def top5Of (counts : List Nat) : ℚ :=
  meanOf ((sortBy (fun a b => decide (b ≤ a)) counts).take 5)

/-- Modelled from the spec: the `EngagementProfile` computed once per run
from the discovered post set's comment counts. -/
def computeProfile (counts : List Nat) : EngagementProfile :=
  { median := medianOf counts, mean := meanOf counts, top5 := top5Of counts }

/-- Modelled from the spec: the decision rule of spec §4.4 — any of
`median < 5`, `mean < 10`, `top5_average < 8` triggers relaxed mode,
otherwise strict. -/
def decideMode (p : EngagementProfile) : Mode :=
  if p.median < 5 ∨ p.mean < 10 ∨ p.top5 < 8 then Mode.relaxed else Mode.strict

/-- Modelled from the spec: `EngagementClassifier.classify` on the
discovered posts' comment counts. -/
def classify (counts : List Nat) : Mode :=
  decideMode (computeProfile counts)

theorem startsWithB_iff (n h : PyStr) :
    startsWithB n h = true ↔ ∃ rest, h = n ++ rest := by
  induction n generalizing h with
  | nil => simp [startsWithB]
  | cons a as ih =>
    cases h with
    | nil =>
      simp [startsWithB]
    | cons b bs =>
      simp only [startsWithB, Bool.and_eq_true, decide_eq_true_eq, ih]
      constructor
      · rintro ⟨rfl, rest, rfl⟩
        exact ⟨rest, rfl⟩
      · rintro ⟨rest, hr⟩
        rw [List.cons_append] at hr
        injection hr with h1 h2
        exact ⟨h1.symm, rest, h2⟩

theorem containsStr_iff (hay needle : PyStr) :
    containsStr hay needle = true ↔ SubStr needle hay := by
  induction hay with
  | nil =>
    simp only [containsStr, SubStr, List.isEmpty_iff]
    constructor
    · rintro rfl; exact ⟨[], [], rfl⟩
    · rintro ⟨pre, post, hp⟩
      have hlen : needle.length = 0 := by
        have := congrArg List.length hp
        simp at this
        omega
      cases needle with
      | nil => rfl
      | cons x xs => simp at hlen
  | cons c t ih =>
    simp only [containsStr, Bool.or_eq_true, startsWithB_iff, ih, SubStr]
    constructor
    · rintro (⟨rest, hr⟩ | ⟨pre, post, rfl⟩)
      · exact ⟨[], rest, by simpa using hr⟩
      · exact ⟨c :: pre, post, by simp⟩
    · rintro ⟨pre, post, hp⟩
      cases pre with
      | nil =>
        left
        exact ⟨post, by simpa using hp⟩
      | cons p ps =>
        right
        rw [List.cons_append, List.cons_append] at hp
        obtain ⟨-, h2⟩ := List.cons.injEq .. ▸ hp
        exact ⟨ps, post, by simpa using h2⟩

/-- Every token produced by `pySplit` is nonempty. -/
theorem pySplit_mem_ne_nil {s : PyStr} {t : PyStr} (h : t ∈ pySplit s) :
    t ≠ [] := by
  have := List.of_mem_filter h
  simpa using this

/-- If `pySplit s` is nonempty then `s` is nonempty. -/
theorem pySplit_ne_nil {s : PyStr} (h : pySplit s ≠ []) : s ≠ [] := by
  intro hs
  subst hs
  simp [pySplit, List.splitOnP] at h
  revert h
  decide

/-- A string that occurs inside the empty string is empty. -/
theorem subStr_nil {n : PyStr} (h : SubStr n []) : n = [] := by
  obtain ⟨pre, post, hp⟩ := h
  have hlen : n.length = 0 := by
    have := congrArg List.length hp
    simp at this
    omega
  cases n with
  | nil => rfl
  | cons x xs => simp at hlen

theorem lower_eq_nil {s : PyStr} : lower s = [] ↔ s = [] := by
  simp [lower]

theorem pySplit_nil : pySplit [] = [] := by decide

/-- Unfolding of `is_relevant` on nonempty text and query: the three branches
of the source function, written as boolean expressions. -/
theorem is_relevant_pos (text query : PyStr) (r : Bool)
    (ht : text ≠ []) (hq : query ≠ []) :
    is_relevant text query r =
      (if (pySplit (lower query)).length = 1 then
        containsStr (lower text) (lower query)
      else if r then
        containsStr (lower text) (lower query) ||
          decide (max 1 ((pySplit (lower query)).length / 2 + 1) ≤
            ((pySplit (lower query)).filter
              (fun term => containsStr (lower text) term)).length)
      else
        containsStr (lower text) (lower query) ||
          (pySplit (lower query)).all (fun term => containsStr (lower text) term)) := by
  have hcond : (text.isEmpty || query.isEmpty) = false := by
    simp [List.isEmpty_iff]
    exact ⟨ht, hq⟩
  unfold is_relevant
  rw [hcond]
  simp only [Bool.false_eq_true, if_false]
  by_cases hlen : (pySplit (lower query)).length = 1
  · simp [hlen]
  · cases r with
    | false =>
      simp only [hlen, if_false, Bool.not_false, if_true]
      cases hc : containsStr (lower text) (lower query) <;> simp [hc]
    | true =>
      simp only [hlen, if_false, Bool.not_true, if_true]
      cases hc : containsStr (lower text) (lower query) <;> simp [hc]

/-- C1: in strict mode, after lowercasing, a single-term query matches exactly
when the lowercased query is a substring of the text, and a multi-term query
matches exactly when the exact lowercased query appears as a substring or
every whitespace-separated query term appears somewhere in the text. -/
theorem c1_strict_mode_characterization (text query : PyStr) :
    ((pySplit (lower query)).length = 1 →
      (is_relevant text query false = true ↔ SubStr (lower query) (lower text))) ∧
    (2 ≤ (pySplit (lower query)).length →
      (is_relevant text query false = true ↔
        SubStr (lower query) (lower text) ∨
          ∀ t ∈ pySplit (lower query), SubStr t (lower text))) := by
  constructor
  · intro hlen
    by_cases ht : text = []
    · subst ht
      rw [show is_relevant [] query false = false from rfl]
      constructor
      · intro h; simp at h
      · intro hp
        exfalso
        have hq0 : query = [] := lower_eq_nil.mp (subStr_nil hp)
        rw [hq0] at hlen
        simp [lower, pySplit_nil] at hlen
    · by_cases hq : query = []
      · exfalso
        rw [hq] at hlen
        simp [lower, pySplit_nil] at hlen
      · rw [is_relevant_pos text query false ht hq, if_pos hlen]
        exact containsStr_iff (lower text) (lower query)
  · intro hlen
    have hne1 : (pySplit (lower query)).length ≠ 1 := by omega
    by_cases ht : text = []
    · subst ht
      rw [show is_relevant [] query false = false from rfl]
      constructor
      · intro h; simp at h
      · rintro (hp | hall)
        · exfalso
          have hq0 : query = [] := lower_eq_nil.mp (subStr_nil hp)
          rw [hq0] at hlen
          simp [lower, pySplit_nil] at hlen
        · exfalso
          obtain ⟨t, htm⟩ : ∃ t, t ∈ pySplit (lower query) := by
            cases hterms : pySplit (lower query) with
            | nil => rw [hterms] at hlen; simp at hlen
            | cons a l => exact ⟨a, hterms ▸ List.mem_cons_self a l⟩
          exact pySplit_mem_ne_nil htm (subStr_nil (hall t htm))
    · by_cases hq : query = []
      · exfalso
        rw [hq] at hlen
        simp [lower, pySplit_nil] at hlen
      · rw [is_relevant_pos text query false ht hq, if_neg hne1,
          if_neg Bool.false_ne_true]
        simp only [Bool.or_eq_true, List.all_eq_true, containsStr_iff]

theorem c1_strict_mode_characterization_witness :
    ((pySplit (lower "iPhone".data)).length = 1 ∧
      (is_relevant "Got the iPhone 15 Pro yesterday, loving it!".data "iPhone".data false = true ↔
        SubStr (lower "iPhone".data) (lower "Got the iPhone 15 Pro yesterday, loving it!".data))) ∧
    (2 ≤ (pySplit (lower "iPhone 15".data)).length ∧
      (is_relevant "My iPhone has great battery life".data "iPhone 15".data false = true ↔
        SubStr (lower "iPhone 15".data) (lower "My iPhone has great battery life".data) ∨
          ∀ t ∈ pySplit (lower "iPhone 15".data),
            SubStr t (lower "My iPhone has great battery life".data))) :=
  ⟨⟨by decide,
    (c1_strict_mode_characterization "Got the iPhone 15 Pro yesterday, loving it!".data
      "iPhone".data).1 (by decide)⟩,
   ⟨by decide,
    (c1_strict_mode_characterization "My iPhone has great battery life".data
      "iPhone 15".data).2 (by decide)⟩⟩

/-- C2: in relaxed mode a multi-term query matches exactly when the exact
lowercased phrase appears as a substring, or at least
`floor(term_count/2) + 1` of the query terms (a strict majority) occur in the
text; the 4-term query "iPhone 15 Pro Max" accepts a text containing
"iphone", "15" and "pro" but not "max", and rejects a text containing only
"iphone" and "15". -/
theorem c2_relaxed_mode_characterization (text query : PyStr) :
    (2 ≤ (pySplit (lower query)).length →
      (is_relevant text query true = true ↔
        SubStr (lower query) (lower text) ∨
          (pySplit (lower query)).length / 2 + 1 ≤
            (pySplit (lower query)).countP (fun t => containsStr (lower text) t))) ∧
    is_relevant "iPhone 15 Pro camera is insane".data "iPhone 15 Pro Max".data true = true ∧
    is_relevant "The iPhone 15 has great battery".data "iPhone 15 Pro Max".data true = false := by
  refine ⟨?_, by decide, by decide⟩
  intro hlen
  have hne1 : (pySplit (lower query)).length ≠ 1 := by omega
  by_cases ht : text = []
  · subst ht
    rw [show is_relevant [] query true = false from rfl]
    constructor
    · intro h; simp at h
    · rintro (hp | hcount)
      · exfalso
        have hq0 : query = [] := lower_eq_nil.mp (subStr_nil hp)
        rw [hq0] at hlen
        simp [lower, pySplit_nil] at hlen
      · exfalso
        have hzero : (pySplit (lower query)).countP
            (fun t => containsStr (lower []) t) = 0 := by
          rw [List.countP_eq_zero]
          intro t htm
          have hne := pySplit_mem_ne_nil htm
          cases t with
          | nil => exact absurd rfl hne
          | cons c cs => simp [lower, containsStr]
        rw [hzero] at hcount
        omega
  · by_cases hq : query = []
    · exfalso
      rw [hq] at hlen
      simp [lower, pySplit_nil] at hlen
    · rw [is_relevant_pos text query true ht hq, if_neg hne1, if_pos rfl]
      have hmax : max 1 ((pySplit (lower query)).length / 2 + 1) =
          (pySplit (lower query)).length / 2 + 1 := by omega
      simp only [Bool.or_eq_true, decide_eq_true_eq, containsStr_iff, hmax,
        List.countP_eq_length_filter]

theorem c2_relaxed_mode_characterization_witness :
    2 ≤ (pySplit (lower "iPhone 15 Pro Max".data)).length ∧
    (is_relevant "The 15 Pro looks cool".data "iPhone 15 Pro Max".data true = true ↔
      SubStr (lower "iPhone 15 Pro Max".data) (lower "The 15 Pro looks cool".data) ∨
        (pySplit (lower "iPhone 15 Pro Max".data)).length / 2 + 1 ≤
          (pySplit (lower "iPhone 15 Pro Max".data)).countP
            (fun t => containsStr (lower "The 15 Pro looks cool".data) t)) :=
  ⟨by decide,
   (c2_relaxed_mode_characterization "The 15 Pro looks cool".data
     "iPhone 15 Pro Max".data).1 (by decide)⟩

/-- C10 fails as stated: for the whitespace-only query " " (which splits into
zero terms) and the text "a", strict mode accepts (the all-terms check is
vacuously true) while relaxed mode rejects (zero terms present, one
required). -/
theorem c10_counterexample :
    is_relevant "a".data " ".data false = true ∧
    is_relevant "a".data " ".data true = false := by
  exact ⟨by decide, by decide⟩

/-- C10 (amended): for every text and every query whose lowercasing splits
into at least one whitespace-separated term, strict-mode acceptance implies
relaxed-mode acceptance. -/
theorem c10_strict_implies_relaxed (text query : PyStr)
    (hterms : 1 ≤ (pySplit (lower query)).length)
    (hstrict : is_relevant text query false = true) :
    is_relevant text query true = true := by
  by_cases ht : text = []
  · subst ht
    rw [show is_relevant [] query false = false from rfl] at hstrict
    simp at hstrict
  · by_cases hq : query = []
    · exfalso
      rw [hq] at hterms
      simp [lower, pySplit_nil] at hterms
    · rw [is_relevant_pos text query false ht hq] at hstrict
      rw [is_relevant_pos text query true ht hq]
      by_cases hlen : (pySplit (lower query)).length = 1
      · rw [if_pos hlen] at hstrict ⊢
        exact hstrict
      · rw [if_neg hlen] at hstrict ⊢
        rw [if_pos rfl]
        rw [if_neg Bool.false_ne_true] at hstrict
        simp only [Bool.or_eq_true] at hstrict ⊢
        rcases hstrict with hphrase | hall
        · exact Or.inl hphrase
        · right
          rw [List.all_eq_true] at hall
          have hfilter : (pySplit (lower query)).filter
              (fun term => containsStr (lower text) term) = pySplit (lower query) :=
            List.filter_eq_self.mpr hall
          rw [hfilter]
          simp only [decide_eq_true_eq]
          omega

theorem c10_strict_implies_relaxed_witness :
    1 ≤ (pySplit (lower "Tesla Model 3".data)).length ∧
    is_relevant "Just got my Tesla Model 3!".data "Tesla Model 3".data false = true ∧
    is_relevant "Just got my Tesla Model 3!".data "Tesla Model 3".data true = true :=
  ⟨by decide, by decide,
   c10_strict_implies_relaxed "Just got my Tesla Model 3!".data "Tesla Model 3".data
     (by decide) (by decide)⟩

theorem insertBy_perm {α : Type} (le : α → α → Bool) (x : α) (l : List α) :
    List.Perm (insertBy le x l) (x :: l) := by
  induction l with
  | nil => exact List.Perm.refl _
  | cons y ys ih =>
    by_cases h : le x y = true
    · rw [insertBy, if_pos h]
    · rw [insertBy, if_neg h]
      exact (List.Perm.cons y ih).trans (List.Perm.swap x y ys)

theorem sortBy_perm {α : Type} (le : α → α → Bool) (l : List α) :
    List.Perm (sortBy le l) l := by
  induction l with
  | nil => exact List.Perm.refl _
  | cons x xs ih =>
    exact (insertBy_perm le x (sortBy le xs)).trans (List.Perm.cons x ih)

theorem insertBy_pairwise {α : Type} {le : α → α → Bool}
    (htot : ∀ a b, le a b = false → le b a = true)
    (htrans : ∀ a b c, le a b = true → le b c = true → le a c = true)
    (x : α) {l : List α} (hl : l.Pairwise (fun a b => le a b = true)) :
    (insertBy le x l).Pairwise (fun a b => le a b = true) := by
  induction l with
  | nil => simp [insertBy]
  | cons y ys ih =>
    rcases List.pairwise_cons.mp hl with ⟨hy, hys⟩
    by_cases h : le x y = true
    · rw [insertBy, if_pos h]
      refine List.pairwise_cons.mpr ⟨?_, hl⟩
      intro z hz
      rcases List.mem_cons.mp hz with rfl | hz'
      · exact h
      · exact htrans x y z h (hy z hz')
    · rw [insertBy, if_neg h]
      have hf : le x y = false := by revert h; cases le x y <;> simp
      refine List.pairwise_cons.mpr ⟨?_, ih hys⟩
      intro z hz
      have hz' := (insertBy_perm le x ys).mem_iff.mp hz
      rcases List.mem_cons.mp hz' with rfl | hz''
      · exact htot _ _ hf
      · exact hy z hz''

theorem sortBy_pairwise {α : Type} {le : α → α → Bool}
    (htot : ∀ a b, le a b = false → le b a = true)
    (htrans : ∀ a b c, le a b = true → le b c = true → le a c = true)
    (l : List α) : (sortBy le l).Pairwise (fun a b => le a b = true) := by
  induction l with
  | nil => simp [sortBy]
  | cons x xs ih => exact insertBy_pairwise htot htrans x ih

/-- The finalized comment list is sorted by score, descending. -/
theorem finalize_sorted (m : List Comment) (target : Nat) :
    (finalize m target).Pairwise (fun a b => b.score ≤ a.score) := by
  have hs : (sortBy (fun a b : Comment => decide (b.score ≤ a.score)) m).Pairwise
      (fun a b => decide (b.score ≤ a.score) = true) :=
    sortBy_pairwise
      (fun a b hab => by
        simp only [decide_eq_false_iff_not, not_le] at hab
        simp only [decide_eq_true_eq]
        omega)
      (fun a b c hab hbc => by
        simp only [decide_eq_true_eq] at hab hbc ⊢
        omega) m
  have hs' := hs.imp (fun hab => of_decide_eq_true hab)
  exact hs'.sublist (List.take_sublist _ _)

theorem dictUpd_nodup {α β : Type} [DecidableEq β] (key : α → β) {m : List α}
    (hm : (m.map key).Nodup) (x : α) : ((dictUpd key m x).map key).Nodup := by
  by_cases h : m.any (fun y => key y = key x) = true
  · rw [dictUpd, if_pos h]
    have hmap : (m.map (fun y => if key y = key x then x else y)).map key = m.map key := by
      rw [List.map_map]
      apply List.map_congr_left
      intro y _
      by_cases hk : key y = key x
      · simp [hk]
      · simp [hk]
    rw [hmap]
    exact hm
  · rw [dictUpd, if_neg h]
    have hnotin : key x ∉ m.map key := by
      intro hmem
      rcases List.mem_map.mp hmem with ⟨y, hym, hkey⟩
      exact h (List.any_eq_true.mpr ⟨y, hym, by simp [hkey]⟩)
    simp [List.nodup_append, hm, hnotin]

theorem foldl_dictUpd_nodup {α β : Type} [DecidableEq β] (key : α → β) :
    ∀ (cs : List α) (m : List α), (m.map key).Nodup →
      ((cs.foldl (dictUpd key) m).map key).Nodup
  | [], _, hm => hm
  | c :: cs, m, hm => foldl_dictUpd_nodup key cs (dictUpd key m c) (dictUpd_nodup key hm c)

theorem mergeLoop_nodup (needed : Nat) :
    ∀ (batches : List (List Comment)) (m : List Comment),
      (m.map Comment.id).Nodup → ((mergeLoop needed m batches).map Comment.id).Nodup := by
  intro batches
  induction batches with
  | nil => intro m hm; exact hm
  | cons cs rest ih =>
    intro m hm
    show ((if needed ≤ (cs.foldl (dictUpd Comment.id) m).length
        then cs.foldl (dictUpd Comment.id) m
        else mergeLoop needed (cs.foldl (dictUpd Comment.id) m) rest).map Comment.id).Nodup
    by_cases h : needed ≤ (cs.foldl (dictUpd Comment.id) m).length
    · rw [if_pos h]
      exact foldl_dictUpd_nodup Comment.id cs m hm
    · rw [if_neg h]
      exact ih _ (foldl_dictUpd_nodup Comment.id cs m hm)

theorem finalize_nodup {m : List Comment} (hm : (m.map Comment.id).Nodup)
    (target : Nat) : ((finalize m target).map Comment.id).Nodup := by
  have hperm : List.Perm (sortBy (fun a b : Comment => decide (b.score ≤ a.score)) m) m :=
    sortBy_perm _ m
  have hnodup : ((sortBy (fun a b : Comment => decide (b.score ≤ a.score)) m).map
      Comment.id).Nodup := ((hperm.map Comment.id).nodup_iff).mpr hm
  rw [finalize, List.map_take]
  exact List.Nodup.sublist (List.take_sublist _ _) hnodup

/-- C3 fails as stated: the dedup merge writes `comments_by_id[c.id] = c`
unconditionally, so a later-arriving comment with an already-seen id
replaces the stored record (last-seen wins, not first-seen). -/
theorem c3_counterexample :
    mergeLoop 10 [] [[⟨"dup", "first".data, 1, "t".data⟩],
        [⟨"dup", "second".data, 2, "t".data⟩]] =
      [⟨"dup", "second".data, 2, "t".data⟩] ∧
    (⟨"dup", "first".data, 1, "t".data⟩ : Comment) ≠
      ⟨"dup", "second".data, 2, "t".data⟩ :=
  ⟨rfl, by decide⟩

/-- C3 (amended): the FETCHING merge is a dedup map keyed by comment id with
last-seen-wins (writing a comment always stores exactly that record), and
the final `FetchResult.comments` contains each comment id at most once. -/
theorem c3_dedup_last_seen_wins :
    (∀ (m : List Comment) (c : Comment), c ∈ dictUpd Comment.id m c) ∧
    (∀ (stratResults : List StratResult) (batches : List (List Comment))
        (target : Nat) (r : FetchResult),
      fetchMassModel stratResults batches target = Except.ok r →
        (r.comments.map Comment.id).Nodup) := by
  constructor
  · intro m c
    by_cases h : m.any (fun y => Comment.id y = Comment.id c) = true
    · rw [dictUpd, if_pos h]
      rcases List.any_eq_true.mp h with ⟨y, hym, hkey⟩
      simp only [decide_eq_true_eq] at hkey
      exact List.mem_map.mpr ⟨y, hym, by simp [hkey]⟩
    · rw [dictUpd, if_neg h]
      exact List.mem_append.mpr (Or.inr (List.mem_singleton.mpr rfl))
  · intro stratResults batches target r h
    simp only [fetchMassModel, Except.ok.injEq] at h
    have hc : r.comments = finalize (mergeLoop target [] batches) target := by
      rw [← h]
    rw [hc]
    exact finalize_nodup (mergeLoop_nodup target batches [] (by simp)) target

theorem c3_dedup_last_seen_wins_witness :
    ((⟨"a", "x".data, 3, "t".data⟩ : Comment) ∈
      dictUpd Comment.id [⟨"a", "old".data, 1, "t".data⟩] ⟨"a", "x".data, 3, "t".data⟩) ∧
    (((⟨[⟨"a", "x".data, 3, "t".data⟩], 1, 1⟩ : FetchResult).comments.map
      Comment.id).Nodup) :=
  ⟨c3_dedup_last_seen_wins.1 [⟨"a", "old".data, 1, "t".data⟩] ⟨"a", "x".data, 3, "t".data⟩,
   c3_dedup_last_seen_wins.2 [] [[⟨"a", "x".data, 3, "t".data⟩]] 1
     ⟨[⟨"a", "x".data, 3, "t".data⟩], 1, 1⟩ rfl⟩

/-- C4: the finalized output of `fetch_mass_comments` is sorted by score
descending (each comment's score is at least the next one's) and truncated
to at most `target_comments` comments, for every strategy outcome, batch
arrival order and target. -/
theorem c4_finalized_sorted_and_truncated (stratResults : List StratResult)
    (batches : List (List Comment)) (target : Nat) (r : FetchResult)
    (h : fetchMassModel stratResults batches target = Except.ok r) :
    (∀ i (hi : i + 1 < r.comments.length),
      (r.comments.get ⟨i + 1, hi⟩).score ≤ (r.comments.get ⟨i, by omega⟩).score) ∧
    r.comments.length ≤ target := by
  simp only [fetchMassModel, Except.ok.injEq] at h
  have hc : r.comments = finalize (mergeLoop target [] batches) target := by
    rw [← h]
  constructor
  · intro i hi
    have hp : (r.comments).Pairwise (fun a b => b.score ≤ a.score) := by
      rw [hc]; exact finalize_sorted _ _
    exact List.pairwise_iff_get.mp hp ⟨i, by omega⟩ ⟨i + 1, hi⟩
      (Fin.mk_lt_mk.mpr (by omega))
  · rw [hc, finalize]
    simp [List.length_take]

theorem c4_finalized_sorted_and_truncated_witness :
    (∀ i (hi : i + 1 <
        (FetchResult.comments ⟨[⟨"b", "y".data, 5, "t".data⟩,
          ⟨"a", "x".data, 1, "t".data⟩], 2, 5⟩).length),
      ((FetchResult.comments ⟨[⟨"b", "y".data, 5, "t".data⟩,
          ⟨"a", "x".data, 1, "t".data⟩], 2, 5⟩).get ⟨i + 1, hi⟩).score ≤
      ((FetchResult.comments ⟨[⟨"b", "y".data, 5, "t".data⟩,
          ⟨"a", "x".data, 1, "t".data⟩], 2, 5⟩).get ⟨i, by omega⟩).score) ∧
    (FetchResult.comments ⟨[⟨"b", "y".data, 5, "t".data⟩,
        ⟨"a", "x".data, 1, "t".data⟩], 2, 5⟩).length ≤ 5 :=
  c4_finalized_sorted_and_truncated []
    [[⟨"a", "x".data, 1, "t".data⟩, ⟨"b", "y".data, 5, "t".data⟩]] 5
    ⟨[⟨"b", "y".data, 5, "t".data⟩, ⟨"a", "x".data, 1, "t".data⟩], 2, 5⟩ rfl

/-- C5 fails as stated: there is no `NoPostsFoundError` anywhere in the
code.  When all six discovery strategies fail, every exception is caught in
the strategy loop and the run proceeds with an empty post list, returning a
normal result with zero comments instead of raising. -/
theorem c5_counterexample :
    fetchMassModel (List.replicate 6 (Except.error ())) [] 10000 =
      Except.ok ⟨[], 0, 10000⟩ := rfl

/-- C5 (amended): `fetch_mass_comments` never surfaces a discovery error to
the caller — it always returns a normal result, and each failed strategy is
merely excluded from the merged post list (discovery uses exactly the
successful strategies' posts). -/
theorem c5_failed_strategies_excluded :
    (∀ (stratResults : List StratResult) (batches : List (List Comment))
        (target : Nat),
      ∃ r, fetchMassModel stratResults batches target = Except.ok r) ∧
    (∀ stratResults : List StratResult,
      discoverPosts stratResults = discoverPosts (stratResults.filter Except.isOk)) := by
  constructor
  · intro stratResults batches target
    exact ⟨_, rfl⟩
  · intro stratResults
    have hfold : ∀ (rs : List StratResult) (acc : List Post),
        rs.foldl (fun acc r => acc ++ (r.toOption.getD [])) acc =
          (rs.filter Except.isOk).foldl (fun acc r => acc ++ (r.toOption.getD [])) acc := by
      intro rs
      induction rs with
      | nil => intro acc; rfl
      | cons r rest ih =>
        intro acc
        cases r with
        | ok ps =>
          rw [List.foldl_cons]
          rw [show List.filter Except.isOk (Except.ok ps :: rest) =
            Except.ok ps :: List.filter Except.isOk rest from by
              simp [List.filter_cons, Except.isOk, Except.toBool]]
          rw [List.foldl_cons]
          exact ih _
        | error e =>
          rw [List.foldl_cons]
          rw [show List.filter Except.isOk (Except.error e :: rest) =
            List.filter Except.isOk rest from by
              simp [List.filter_cons, Except.isOk, Except.toBool]]
          rw [show ((Except.error e : StratResult).toOption.getD []) = ([] : List Post) from rfl,
            List.append_nil]
          exact ih acc
    rw [discoverPosts, discoverPosts, hfold]

/-- Every comment emitted by the `extract_comments` flattening satisfies the
per-comment quality gate of the source (score, length, placeholder and
keyword checks), proved by strong induction on the tree size. -/
theorem extractForest_gate (ms : Int) (kws : List PyStr) (q pt : PyStr) :
    ∀ (n : Nat) (ts : List RTree) (d : Nat), sizeOf ts ≤ n →
      ∀ c ∈ extractForest ms kws q pt ts d,
        ms ≤ c.score ∧ 10 ≤ c.text.length ∧ c.text ≠ "[deleted]".data ∧
        c.text ≠ "[removed]".data ∧
        (kws ≠ [] →
          (kws.any (fun k => containsStr (combinedText c.text pt) k) = true ∨
            containsStr (combinedText c.text pt) (lower q) = true)) := by
  intro n
  induction n with
  | zero =>
    intro ts d hsize c hc
    cases ts with
    | nil => simp [extractForest] at hc
    | cons t rest =>
      exfalso
      simp only [List.cons.sizeOf_spec] at hsize
      omega
  | succ n ih =>
    intro ts d hsize c hc
    cases ts with
    | nil => simp [extractForest] at hc
    | cons t rest =>
      simp only [extractForest] at hc
      rcases List.mem_append.mp hc with hc1 | hc2
      · cases t with
        | node kind cid score body replies =>
          simp only [extractNode] at hc1
          split at hc1
          next => simp at hc1
          next hkind =>
            split at hc1
            next => simp at hc1
            next hgate =>
              split at hc1
              next => simp at hc1
              next hkw =>
                push_neg at hgate hkw
                rcases List.mem_cons.mp hc1 with rfl | hcrest
                · exact ⟨hgate.1, hgate.2.1, hgate.2.2.1, hgate.2.2.2, hkw⟩
                · split at hcrest
                  next =>
                    refine ih replies (d + 1) ?_ c hcrest
                    simp only [List.cons.sizeOf_spec, RTree.node.sizeOf_spec] at hsize
                    omega
                  next => simp at hcrest
      · refine ih rest d ?_ c hc2
        simp only [List.cons.sizeOf_spec] at hsize
        omega

/-- C6 fails as stated: the quality gate of `extract_comments` has no
strict/relaxed mode (the length minimum is always 10) and its relevance
check is a keyword any-match, not `is_relevant`.  With query
"Tesla Model 3", the comment "i love my tesla so much" is emitted (keyword
"tesla" matches) even though `is_relevant` rejects comment+post-title in
both strict and relaxed mode. -/
theorem c6_counterexample :
    extractForest 5 (queryKeywords "Tesla Model 3".data) "Tesla Model 3".data
        "post".data [RTree.node "t1" "c1" 10 "i love my tesla so much".data []] 0 =
      [⟨"c1", "i love my tesla so much".data, 10, "post".data⟩] ∧
    is_relevant (combinedText "i love my tesla so much".data "post".data)
      "Tesla Model 3".data false = false ∧
    is_relevant (combinedText "i love my tesla so much".data "post".data)
      "Tesla Model 3".data true = false := by
  refine ⟨?_, by decide, by decide⟩
  decide

/-- C6 (amended): every comment emitted by the comment-tree flattening
passes the quality gate actually evaluated by the code, in order: score at
least `min_score`; stripped text length at least 10 (there is no
mode-dependent minimum); text not a deleted/removed placeholder; and, when
the query yields keywords (lowercased terms longer than 2 characters),
some keyword - or the full lowercased query - occurs in the lowercased
comment-text + post-title concatenation. -/
theorem c6_quality_gate (min_score : Int) (query post_title : PyStr)
    (ts : List RTree) (depth : Nat) :
    ∀ c ∈ extractForest min_score (queryKeywords query) query post_title ts depth,
      min_score ≤ c.score ∧ 10 ≤ c.text.length ∧
      c.text ≠ "[deleted]".data ∧ c.text ≠ "[removed]".data ∧
      (queryKeywords query ≠ [] →
        ((queryKeywords query).any
            (fun k => containsStr (combinedText c.text post_title) k) = true ∨
          containsStr (combinedText c.text post_title) (lower query) = true)) :=
  extractForest_gate min_score (queryKeywords query) query post_title
    (sizeOf ts) ts depth (le_refl _)

theorem c6_quality_gate_witness :
    (5 : Int) ≤ (⟨"w1", "tesla model 3 is great".data, 10, "post".data⟩ : Comment).score ∧
    10 ≤ (⟨"w1", "tesla model 3 is great".data, 10, "post".data⟩ : Comment).text.length ∧
    (⟨"w1", "tesla model 3 is great".data, 10, "post".data⟩ : Comment).text ≠ "[deleted]".data ∧
    (⟨"w1", "tesla model 3 is great".data, 10, "post".data⟩ : Comment).text ≠ "[removed]".data ∧
    (queryKeywords "Tesla Model 3".data ≠ [] →
      ((queryKeywords "Tesla Model 3".data).any
          (fun k => containsStr
            (combinedText
              (⟨"w1", "tesla model 3 is great".data, 10, "post".data⟩ : Comment).text
              "post".data) k) = true ∨
        containsStr
          (combinedText
            (⟨"w1", "tesla model 3 is great".data, 10, "post".data⟩ : Comment).text
            "post".data)
          (lower "Tesla Model 3".data) = true)) :=
  c6_quality_gate 5 "Tesla Model 3".data "post".data
    [RTree.node "t1" "w1" 10 "tesla model 3 is great".data []] 0
    ⟨"w1", "tesla model 3 is great".data, 10, "post".data⟩ (by decide)

/-- C7: if the HTTP fetch of a post's comment tree fails on every available
account, `fetch_comments_lightweight` returns the empty list rather than
raising. -/
theorem c7_all_accounts_failed_returns_empty (min_score : Int) (query : PyStr)
    (attempts : List (Option ParsedTree)) (h : ∀ a ∈ attempts, a = none) :
    fetchCommentsLightweight min_score query attempts = [] := by
  induction attempts with
  | nil => rfl
  | cons a rest ih =>
    have ha := h a (List.mem_cons_self a rest)
    subst ha
    show fetchCommentsLightweight min_score query rest = []
    exact ih (fun x hx => h x (List.mem_cons_of_mem _ hx))

theorem c7_all_accounts_failed_returns_empty_witness :
    fetchCommentsLightweight 5 "Pixel 8".data [none, none] = [] :=
  c7_all_accounts_failed_returns_empty 5 "Pixel 8".data [none, none] (by simp)

/-- A `consume` call always leaves the token count at or below capacity
when the requested amount is nonnegative, whatever the prior state and
elapsed time (the refill is capped by `min` and consuming only subtracts). -/
theorem TokenBucket.consume_le_capacity (b : TokenBucket) (now req : ℚ)
    (hreq : 0 ≤ req) :
    ((b.consume now req).1).tokens ≤ ((b.consume now req).1).capacity := by
  unfold TokenBucket.consume
  by_cases h : req ≤ min b.capacity (b.tokens + (now - b.last) * b.rate)
  · rw [if_pos h]
    simp only
    calc min b.capacity (b.tokens + (now - b.last) * b.rate) - req ≤
        min b.capacity (b.tokens + (now - b.last) * b.rate) := by linarith
      _ ≤ b.capacity := min_le_left _ _
  · rw [if_neg h]
    simp only
    exact min_le_left _ _

/-- `consume` never changes the capacity. -/
theorem TokenBucket.consume_capacity_eq (b : TokenBucket) (now req : ℚ) :
    ((b.consume now req).1).capacity = b.capacity := by
  unfold TokenBucket.consume
  by_cases h : req ≤ min b.capacity (b.tokens + (now - b.last) * b.rate)
  · rw [if_pos h]
  · rw [if_neg h]

theorem TokenBucket.runEvents_le_capacity :
    ∀ (evs : List (ℚ × ℚ)) (b : TokenBucket), (∀ e ∈ evs, 0 ≤ e.2) →
      b.tokens ≤ b.capacity →
      (TokenBucket.runEvents b evs).tokens ≤ (TokenBucket.runEvents b evs).capacity := by
  intro evs
  induction evs with
  | nil => intro b _ hb; exact hb
  | cons e es ih =>
    intro b hpos hb
    show (TokenBucket.runEvents (b.consume e.1 e.2).1 es).tokens ≤
      (TokenBucket.runEvents (b.consume e.1 e.2).1 es).capacity
    exact ih (b.consume e.1 e.2).1
      (fun x hx => hpos x (List.mem_cons_of_mem _ hx))
      (b.consume_le_capacity e.1 e.2 (hpos e (List.mem_cons_self e es)))

theorem TokenBucket.waitForToken_le_capacity :
    ∀ (ts : List ℚ) (b : TokenBucket), b.tokens ≤ b.capacity →
      ((TokenBucket.waitForToken b ts).1).tokens ≤
        ((TokenBucket.waitForToken b ts).1).capacity := by
  intro ts
  induction ts with
  | nil => intro b hb; exact hb
  | cons t rest ih =>
    intro b hb
    show ((if (b.consume t 1).2 then ((b.consume t 1).1, true)
        else TokenBucket.waitForToken (b.consume t 1).1 rest).1).tokens ≤
      ((if (b.consume t 1).2 then ((b.consume t 1).1, true)
        else TokenBucket.waitForToken (b.consume t 1).1 rest).1).capacity
    by_cases h : (b.consume t 1).2 = true
    · rw [if_pos h]
      exact b.consume_le_capacity t 1 (by norm_num)
    · rw [if_neg h]
      exact ih (b.consume t 1).1 (b.consume_le_capacity t 1 (by norm_num))

/-- C9: the token bucket's available token count never exceeds its
capacity: immediately after construction, after any single `consume` with a
nonnegative request, after any sequence of `consume` calls from a fresh
bucket, and after any `wait_for_token` polling loop (whose state changes
all go through `consume`), for arbitrary call times. -/
theorem c9_tokens_never_exceed_capacity :
    (∀ tpm burst now : ℚ,
      (TokenBucket.init tpm burst now).tokens ≤ (TokenBucket.init tpm burst now).capacity) ∧
    (∀ (b : TokenBucket) (now req : ℚ), 0 ≤ req →
      ((b.consume now req).1).tokens ≤ ((b.consume now req).1).capacity) ∧
    (∀ (tpm burst now : ℚ) (evs : List (ℚ × ℚ)), (∀ e ∈ evs, 0 ≤ e.2) →
      (TokenBucket.runEvents (TokenBucket.init tpm burst now) evs).tokens ≤
        (TokenBucket.runEvents (TokenBucket.init tpm burst now) evs).capacity) ∧
    (∀ (b : TokenBucket) (ts : List ℚ), b.tokens ≤ b.capacity →
      ((TokenBucket.waitForToken b ts).1).tokens ≤
        ((TokenBucket.waitForToken b ts).1).capacity) := by
  refine ⟨?_, ?_, ?_, ?_⟩
  · intro tpm burst now
    simp [TokenBucket.init]
  · intro b now req hreq
    exact b.consume_le_capacity now req hreq
  · intro tpm burst now evs hpos
    exact TokenBucket.runEvents_le_capacity evs (TokenBucket.init tpm burst now) hpos
      (by simp [TokenBucket.init])
  · intro b ts hb
    exact TokenBucket.waitForToken_le_capacity ts b hb

theorem c9_tokens_never_exceed_capacity_witness :
    (((TokenBucket.init 120 4 0).consume 1 1).1.tokens ≤
      ((TokenBucket.init 120 4 0).consume 1 1).1.capacity) ∧
    ((TokenBucket.runEvents (TokenBucket.init 120 4 0) [(0, 1), (2, 0)]).tokens ≤
      (TokenBucket.runEvents (TokenBucket.init 120 4 0) [(0, 1), (2, 0)]).capacity) ∧
    (((TokenBucket.init 120 4 0).waitForToken [0, 1]).1.tokens ≤
      ((TokenBucket.init 120 4 0).waitForToken [0, 1]).1.capacity) :=
  ⟨c9_tokens_never_exceed_capacity.2.1 (TokenBucket.init 120 4 0) 1 1 (by norm_num),
   c9_tokens_never_exceed_capacity.2.2.1 120 4 0 [(0, 1), (2, 0)] (by
     intro e he
     rcases List.mem_cons.mp he with rfl | he'
     · norm_num
     · rcases List.mem_cons.mp he' with rfl | he''
       · norm_num
       · simp at he''),
   c9_tokens_never_exceed_capacity.2.2.2 (TokenBucket.init 120 4 0) [0, 1]
     (by simp [TokenBucket.init])⟩

/-- C8 (modelled from the spec; no engagement classifier exists under the
provided sources): the classifier returns relaxed exactly when
`median < 5` or `mean < 10` or `top5_average < 8` over the discovered
posts' comment counts; any post set whose median is 4 classifies as
relaxed, and the profile (median 6, mean 11, top-5 average 9) decides
strict. -/
theorem c8_engagement_decision_rule :
    (∀ counts : List Nat, classify counts = Mode.relaxed ↔
      ((computeProfile counts).median < 5 ∨ (computeProfile counts).mean < 10 ∨
        (computeProfile counts).top5 < 8)) ∧
    (∀ counts : List Nat, (computeProfile counts).median = 4 →
      classify counts = Mode.relaxed) ∧
    decideMode ⟨6, 11, 9⟩ = Mode.strict := by
  refine ⟨?_, ?_, ?_⟩
  · intro counts
    by_cases h : (computeProfile counts).median < 5 ∨
        (computeProfile counts).mean < 10 ∨ (computeProfile counts).top5 < 8
    · simp [classify, decideMode, h]
    · simp [classify, decideMode, h]
  · intro counts hm
    have h5 : (computeProfile counts).median < 5 := by rw [hm]; norm_num
    simp [classify, decideMode, h5]
  · rw [decideMode, if_neg]
    push_neg
    refine ⟨by norm_num, by norm_num, by norm_num⟩

theorem c8_engagement_decision_rule_witness :
    (computeProfile [2, 4, 9]).median = 4 ∧ classify [2, 4, 9] = Mode.relaxed :=
  ⟨by simp [computeProfile, medianOf, sortBy, insertBy],
   c8_engagement_decision_rule.2.1 [2, 4, 9]
     (by simp [computeProfile, medianOf, sortBy, insertBy])⟩
